import Mathlib

/-!
Verification of the multi-source briefing aggregation pipeline of mm-ai-api.

Each definition below is a shallow embedding of a Python function from the
repository; the doc comment of each definition names the source file and
function it embeds.  Theorems at the end of the file settle the frozen
claims about the spec.
-/

set_option maxHeartbeats 1000000
set_option maxRecDepth 8000
set_option linter.unnecessarySeqFocus false

namespace Briefing

/-- One normalized content item, as handled by the briefing scripts: a dict
with a `title` and a `content` string (`article.get('title', '')`,
`article.get('content', '')`). -/
structure Article where
  title : String
  content : String
deriving DecidableEq, Repr

/-- Word character in the sense of Python's regex `\b` boundary (ASCII):
letters, digits and underscore. -/
def isWordChar (c : Char) : Bool := c.isAlphanum || c == '_'

/-- A token of a text: either a maximal run of word characters or a single
separator character. -/
inductive Tok where
  | word (cs : List Char)
  | sep (c : Char)
deriving DecidableEq, Repr

/-- Tokenizer splitting a character list into maximal word-character runs and
separator characters, preserving order. -/
def tokenizeAux : List Char → List Char → List Tok
  | [], acc => if acc.isEmpty then [] else [.word acc.reverse]
  | c :: cs, acc =>
    if isWordChar c then tokenizeAux cs (c :: acc)
    else if acc.isEmpty then .sep c :: tokenizeAux cs []
    else .word acc.reverse :: .sep c :: tokenizeAux cs []

def tokenize (s : List Char) : List Tok := tokenizeAux s []

/-- Inverse of tokenization: concatenate the tokens back into the text. -/
def joinToks : List Tok → List Char
  | [] => []
  | .word cs :: ts => cs ++ joinToks ts
  | .sep c :: ts => c :: joinToks ts

/-- A run matched by the regex `\b[A-Z]{1,5}\b` used for ticker extraction
(`re.findall(r'\b[A-Z]{1,5}\b', title)`): a maximal word run made entirely of
1 to 5 uppercase ASCII letters. -/
def isTickerRun (lo hi : Nat) (cs : List Char) : Bool :=
  lo ≤ cs.length && cs.length ≤ hi && cs.all Char.isUpper

/-- Embeds `re.findall(r'\b[A-Z]{1,5}\b', title)` from `deduplicate_articles`
and `generate_section` in `generate_briefing_v2.py` /
`generate_briefing_supabase.py`. -/
def findTickers (title : String) : List String :=
  ((tokenize title.toList).filterMap fun t =>
    match t with
    | .word cs => if isTickerRun 1 5 cs then some (String.mk cs) else none
    | .sep _ => none)

/-- Characters stripped around title words: Python
`word.strip('.,!?()[]\x7b\x7d')`. -/
def stripSet : List Char := ['.', ',', '!', '?', '(', ')', '[', ']', '\x7b', '\x7d']

/-- Embeds Python `word.strip('.,!?()[]\x7b\x7d')`: drop the punctuation
characters from both ends of the word. -/
def stripPunct (cs : List Char) : List Char :=
  ((cs.dropWhile (· ∈ stripSet)).reverse.dropWhile (· ∈ stripSet)).reverse

/-- Splitting on whitespace as done by Python `str.split()` with no
argument: maximal non-whitespace runs. -/
def splitWs (s : List Char) : List (List Char) :=
  (tokensWs s []).filter (·.length ≠ 0)
where
  tokensWs : List Char → List Char → List (List Char)
    | [], acc => [acc.reverse]
    | c :: cs, acc =>
      if c.isWhitespace then acc.reverse :: tokensWs cs []
      else tokensWs cs (c :: acc)

def lowerStr (s : String) : String := String.mk (s.toList.map Char.toLower)

/-- Codepoint-lexicographic order on character lists, the order Python's
`sorted` uses on strings. -/
def charListLt : List Char → List Char → Bool
  | [], [] => false
  | [], _ :: _ => true
  | _ :: _, [] => false
  | a :: as, b :: bs =>
    if a.toNat < b.toNat then true
    else if b.toNat < a.toNat then false
    else charListLt as bs

def strLt (a b : String) : Bool := charListLt a.toList b.toList

/-- Insertion into a sorted list of strings, keeping duplicates out; used to
model Python's `tuple(sorted(set))` canonical form. -/
def insertSorted (x : String) : List String → List String
  | [] => [x]
  | y :: ys =>
    if x = y then y :: ys
    else if strLt x y then x :: y :: ys
    else y :: insertSorted x ys

def sortDedup (l : List String) : List String := l.foldl (fun acc x => insertSorted x acc) []

/-- Embeds the topic-signature computation of `deduplicate_articles`
(`generate_briefing_v2.py` lines 91-107, identical in
`generate_briefing_supabase.py`): the sorted set of ticker tokens of the
title together with the stripped words of length > 4 of the lowercased
title. -/
def topicSignature (title : String) : List String :=
  let tickers := findTickers title
  let longWords := (splitWs (lowerStr title).toList).filterMap fun w =>
    if 4 < w.length then some (String.mk (stripPunct w)) else none
  sortDedup (tickers ++ longWords)

/-- Embeds the loop of `deduplicate_articles` (`generate_briefing_v2.py`
lines 86-114, identical in `generate_briefing_supabase.py` lines 93-121):
walk the articles in order, keep an article when its topic signature has not
been seen or has fewer than 2 tokens, and record the signature of every kept
article. -/
def dedupGo (seen : List (List String)) : List Article → List Article
  | [] => []
  | a :: rest =>
    let sig := topicSignature a.title
    if sig ∉ seen ∨ sig.length < 2 then a :: dedupGo (sig :: seen) rest
    else dedupGo seen rest

def deduplicate_articles (articles : List Article) : List Article :=
  dedupGo [] articles

/-- Reference recursion expressing the spec's reading of the keep condition:
an article is kept iff its signature does not occur among the signatures of
the earlier input articles, or has fewer than 2 tokens.  (Second definition
for the refinement-style part of claim C3; compare `deduplicate_articles`.) -/
def dedupKeepSpec (prev : List (List String)) : List Article → List Article
  | [] => []
  | a :: rest =>
    let sig := topicSignature a.title
    if sig ∉ prev ∨ sig.length < 2 then a :: dedupKeepSpec (sig :: prev) rest
    else dedupKeepSpec (sig :: prev) rest

/-- Substring test, embedding Python's `needle in haystack` on strings
(the empty needle is contained in every string). -/
def containsSub (hay needle : List Char) : Bool :=
  match hay with
  | [] => needle.isEmpty
  | _ :: t => needle.isPrefixOf hay || containsSub t needle

/-- Embeds the company-key extraction of `generate_section`
(`generate_briefing_v2.py` lines 132-134): the first ticker token of the
title, else the first 30 characters of the title. -/
def companyKey (title : String) : String :=
  match findTickers title with
  | t :: _ => t
  | [] => String.mk (title.toList.take 30)

/-- Embeds the keyword test of `generate_section`
(`generate_briefing_v2.py` line 141): some focus keyword occurs in the
lowercased title or in the lowercase of the first 1500 characters of the
content. -/
def matchesFocus (kws : List String) (a : Article) : Bool :=
  kws.any fun kw =>
    containsSub (lowerStr a.title).toList kw.toList ||
    containsSub (lowerStr (String.mk (a.content.toList.take 1500))).toList kw.toList

/-- Embeds the article-selection loop of `generate_section`
(`generate_briefing_v2.py` lines 123-146, identical in
`generate_briefing_supabase.py` lines 130-153): walk the deduplicated
articles; skip an article whose company key was already claimed; otherwise,
when focus keywords are given, select the article and claim its key only if
it matches a keyword; with no focus keywords select every article. -/
def sectionFilter (seen : List String) (focus : Option (List String)) :
    List Article → List Article
  | [] => []
  | a :: rest =>
    let key := companyKey a.title
    if key ∈ seen then sectionFilter seen focus rest
    else
      match focus with
      | some kws =>
        if matchesFocus kws a then a :: sectionFilter (key :: seen) (some kws) rest
        else sectionFilter seen (some kws) rest
      | none => a :: sectionFilter (key :: seen) none rest

/-- Embeds the article selection of one `generate_section` call
(`generate_briefing_v2.py` lines 116-151): deduplicate the first 40
articles, run the per-call company-key filter, fall back to the first 10
deduplicated articles when the filter selects nothing, and use at most 10
selected articles. -/
def generate_section (articles : List Article) (focus : Option (List String)) :
    List Article :=
  let uniq := deduplicate_articles (articles.take 40)
  let relevant := sectionFilter [] focus uniq
  let relevant := if relevant.isEmpty then uniq.take 10 else relevant
  relevant.take 10

/-- The focus keyword lists of the sections built by
`create_comprehensive_briefing` (`generate_briefing_v2.py` lines 229-293). -/
def sectionCatalog : List (String × List String) :=
  [("market overview", ["market", "index", "dow", "nasdaq", "s&p", "volume", "trading"]),
   ("stocks", ["stock", "share", "company", "earnings", "revenue"]),
   ("economic", ["fed", "inflation", "gdp", "employment", "economic", "rate"]),
   ("technology", ["tech", "software", "ai", "chip", "semiconductor", "cloud"]),
   ("energy", ["oil", "energy", "gold", "commodity", "crude", "gas"]),
   ("international", ["asia", "europe", "china", "japan", "global", "international"])]

/-- The whole-package routing of `create_comprehensive_briefing`
(`generate_briefing_v2.py` lines 229-293): each section is produced by an
independent `generate_section` call over the same article list. -/
def routeSections (sections : List (String × List String)) (articles : List Article) :
    List (String × List Article) :=
  sections.map fun s => (s.1, generate_section articles (some s.2))

/-- Strategy tier chosen by the adaptive-content logic of
`TopicBriefingGenerator.generate_topic_briefing`
(`daily_topic_briefing.py` lines 244-258). -/
inductive ContentStrategy where
  | comprehensive
  | detailed
  | deep_analysis
deriving DecidableEq, Repr

/-- Embeds the tier choice of `generate_topic_briefing`
(`daily_topic_briefing.py` lines 244-258): 15 or more articles are
comprehensive, 8 to 14 are detailed, fewer than 8 are deep analysis. -/
def content_strategy (article_count : Nat) : ContentStrategy :=
  if 15 ≤ article_count then .comprehensive
  else if 8 ≤ article_count then .detailed
  else .deep_analysis

/-- Embeds the briefing-length adjustment of `generate_topic_briefing`
(`daily_topic_briefing.py` lines 244-258): full target length when
comprehensive, `max(target_length - 3, 8)` when detailed,
`max(target_length - 5, 5)` when deep analysis. -/
def actual_length (article_count target_length : Nat) : Nat :=
  if 15 ≤ article_count then target_length
  else if 8 ≤ article_count then max (target_length - 3) 8
  else max (target_length - 5) 5

/-- Embeds the fixed per-section word-budget tables of
`generate_topic_briefing` (`daily_topic_briefing.py` lines 292-327),
keyed by the chosen strategy and, for the comprehensive tier, by whether
the adjusted length is at least 14 minutes. -/
def section_targets (article_count target_length : Nat) : List (String × Nat) :=
  match content_strategy article_count with
  | .comprehensive =>
    if 14 ≤ actual_length article_count target_length then
      [("developments", 600), ("impact", 500), ("highlights", 500),
       ("outlook", 400), ("conclusion", 250)]
    else
      [("developments", 500), ("impact", 400), ("highlights", 400),
       ("outlook", 350), ("conclusion", 200)]
  | .detailed =>
      [("developments", 500), ("impact", 350), ("highlights", 350),
       ("outlook", 300), ("conclusion", 200)]
  | .deep_analysis =>
      [("developments", 450), ("impact", 300), ("highlights", 300),
       ("outlook", 250), ("conclusion", 150)]

/-- Sum of the per-section word budgets of one briefing plan. -/
def sectionSum (article_count target_length : Nat) : Nat :=
  ((section_targets article_count target_length).map (·.2)).sum

/-- Embeds `target_words = actual_length * 150` of `generate_topic_briefing`
(`daily_topic_briefing.py` line 261). -/
def target_words (article_count target_length : Nat) : Nat :=
  actual_length article_count target_length * 150

/-- Embeds the look-back window adjustment of
`TopicBriefingGenerator.fetch_topic_articles`
(`daily_topic_briefing.py` lines 134-143): on Mondays (US-Eastern weekday 0)
a requested 1-day window silently becomes 3 days; every other combination is
passed through. -/
def actual_days_back (weekday days_back : Nat) : Nat :=
  if weekday = 0 ∧ days_back = 1 then 3 else days_back

/-- Embeds `start_date = end_date - timedelta(days=actual_days_back)`
(`daily_topic_briefing.py` lines 154-155), with time measured in days. -/
def windowStart (nowDays : Int) (weekday days_back : Nat) : Int :=
  nowDays - actual_days_back weekday days_back

/-- Outcome of `TopicBriefingGenerator.stitch_audio_with_intro`: either the
original main audio file reference, unchanged, or a new file holding the
stitched audio. -/
inductive StitchResult where
  | original
  | combined (audio : List Int)
deriving DecidableEq, Repr

/-- Duration of an audio segment in the embedding: its number of frames
(pydub `len`). -/
def audioDuration (a : List Int) : Nat := a.length

/-- Embeds `TopicBriefingGenerator.stitch_audio_with_intro`
(`daily_topic_briefing.py` lines 439-488).  `available` is
`AUDIO_STITCHING_AVAILABLE`; `introExists` is `os.path.exists(intro_file)`;
`introAudio` / `mainAudio` are the results of the two
`AudioSegment.from_mp3` calls, `none` meaning the load raised.  The whole
body is inside `try/except Exception`, and the except branch returns the
original main file, so a load failure of either segment yields
`StitchResult.original`; when both load, the result file holds
`intro_audio + main_audio`.  (Writing the combined file to disk is I/O and
is not modelled.) -/
def stitch_audio_with_intro (available introExists : Bool)
    (introAudio mainAudio : Option (List Int)) : StitchResult :=
  if !available then .original
  else if !introExists then .original
  else
    match introAudio with
    | none => .original
    | some ia =>
      match mainAudio with
      | none => .original
      | some ma => .combined (ia ++ ma)

/-- Outcome of the HTTP call in `NewsService.fetch_general_market`: a
response with a status code and parsed article list, or a raised
exception. -/
inductive FetchOutcome where
  | httpResponse (status : Nat) (articles : List Article)
  | failure
deriving DecidableEq, Repr

/-- Embeds `NewsService.fetch_general_market`
(`src/services/news_service.py` lines 11-50): on a 200 response return the
first 20 articles with no filtering; on any other status return the empty
list; the surrounding `except Exception` turns a raised error into the
empty list as well. -/
def fetch_general_market : FetchOutcome → List Article
  | .httpResponse status articles => if status = 200 then articles.take 20 else []
  | .failure => []

/-- The fixed escalation ladder of `fetch_world_news`
(`generate_premium_evening_briefing_v2.py` lines 105-145): the keyword of
the initial dated search followed by the two progressively broader
keywords. -/
def worldNewsLadder : List String := ["news", "world", "breaking news international"]

/-- Embeds the escalation test of `fetch_world_news`
(`generate_premium_evening_briefing_v2.py` lines 126 and 135):
`not result or not result.get("articles") or len(result.get("articles", [])) < 5`,
which holds exactly when the result carries fewer than 5 articles. -/
def escalateNeeded (r : Option (List Article)) : Bool := (r.getD []).length < 5

/-- Embeds `fetch_world_news` (`generate_premium_evening_briefing_v2.py`
lines 105-145) over an abstract search oracle mapping a keyword to the
provider result (`none` models a falsy result).  Returns the articles
handed onward (`articles[:75]` of the last attempted search) together with
the list of keywords actually queried. -/
def fetch_world_news (search : String → Option (List Article)) :
    List Article × List String :=
  let r1 := search "news"
  if escalateNeeded r1 then
    let r2 := search "world"
    if escalateNeeded r2 then
      let r3 := search "breaking news international"
      ((r3.getD []).take 75, ["news", "world", "breaking news international"])
    else ((r2.getD []).take 75, ["news", "world"])
  else ((r1.getD []).take 75, ["news"])

/-- Spoken form of a matched ticker in
`MorningPremiumBriefingGenerator._format_for_tts`
(`generate_morning_premium_briefing.py` lines 674-675):
`f"ticker ('-'.join(letters)) --"`. -/
def tickerText (run : List Char) : List Char :=
  "ticker ".toList ++ run.intersperse '-' ++ " --".toList

/-- Embeds `re.sub(r'\b([A-Z]{2,5})\b(?!\w)', ...)` of `_format_for_tts`
(`generate_morning_premium_briefing.py` lines 674-675), scanning left to
right.  A match is a maximal word-character run of 2 to 5 uppercase
letters; positions inside a word run cannot match because of the leading
boundary, so runs are processed whole.  The fuel argument bounds the
recursion and is at least the input length at every call, so the fuel-0
branch is unreachable from `tickerSub`. -/
def tickerGo : Nat → List Char → List Char
  | 0, s => s
  | _ + 1, [] => []
  | fuel + 1, c :: cs =>
    if isWordChar c then
      let run := c :: cs.takeWhile isWordChar
      let rest := cs.dropWhile isWordChar
      if isTickerRun 2 5 run then tickerText run ++ tickerGo fuel rest
      else run ++ tickerGo fuel rest
    else c :: tickerGo fuel cs

def tickerSub (s : List Char) : List Char := tickerGo s.length s

/-- Matcher for the regex fragment `(\d+\.?\d*)` followed by the literal
character `t`, as used by the percent and currency rules of
`_format_for_tts`.  Returns the captured group and the remaining input. -/
def matchNumThen (t : Char) (s : List Char) : Option (List Char × List Char) :=
  let ds1 := s.takeWhile Char.isDigit
  if ds1.isEmpty then none
  else
    match s.drop ds1.length with
    | c :: rest =>
      if c = t then some (ds1, rest)
      else if c = '.' then
        let ds2 := rest.takeWhile Char.isDigit
        match rest.drop ds2.length with
        | c2 :: rest2 =>
          if c2 = t then some (ds1 ++ '.' :: ds2, rest2) else none
        | [] => none
      else none
    | [] => none

/-- Embeds `re.sub(r'(\d+\.?\d*)%', r'\1 percent', text)` of
`_format_for_tts` (`generate_morning_premium_briefing.py` line 678). -/
def percentGo : Nat → List Char → List Char
  | 0, s => s
  | _ + 1, [] => []
  | fuel + 1, c :: cs =>
    match matchNumThen '%' (c :: cs) with
    | some (g, rest) => g ++ " percent".toList ++ percentGo fuel rest
    | none => c :: percentGo fuel cs

def percentSub (s : List Char) : List Char := percentGo s.length s

/-- Embeds the four currency rules
`re.sub(r'\$(\d+\.?\d*)X', r'\1 PHRASE', text)` of `_format_for_tts`
(`generate_morning_premium_briefing.py` lines 681-684), parameterized by
the suffix letter `t` and the spoken phrase. -/
def currencyGo (t : Char) (phrase : List Char) : Nat → List Char → List Char
  | 0, s => s
  | _ + 1, [] => []
  | fuel + 1, c :: cs =>
    if c = '$' then
      match matchNumThen t cs with
      | some (g, rest) => g ++ ' ' :: phrase ++ currencyGo t phrase fuel rest
      | none => c :: currencyGo t phrase fuel cs
    else c :: currencyGo t phrase fuel cs

def currencySub (t : Char) (phrase : String) (s : List Char) : List Char :=
  currencyGo t phrase.toList s.length s

/-- Whitespace in the sense of the regex class `\s`. -/
def isSpaceChar (c : Char) : Bool :=
  c = ' ' || c = '\t' || c = '\n' || c = '\x0b' || c = '\x0c' || c = '\r'

/-- Matcher for the tail `:(\d{2})\s*([AP]M)` of the time rule of
`_format_for_tts`, returning the minute digits, the A/P letter and the
remaining input. -/
def matchTimeTail (rest : List Char) : Option (List Char × Char × List Char) :=
  match rest with
  | ':' :: a :: b :: r3 =>
    if a.isDigit && b.isDigit then
      match r3.dropWhile isSpaceChar with
      | p :: m :: r5 =>
        if (p = 'A' || p = 'P') && m = 'M' then some ([a, b], p, r5) else none
      | _ => none
    else none
  | _ => none

/-- Embeds `re.sub(r'(\d{1,2}):(\d{2})\s*([AP]M)', ...)` of
`_format_for_tts` (`generate_morning_premium_briefing.py` lines 687-689):
the greedy 1-or-2-digit hour group is tried with two digits first and with
one digit as the backtracking fallback; the replacement is
`f"(hour) (minutes) (A-M or P-M)"`. -/
def timeGo : Nat → List Char → List Char
  | 0, s => s
  | _ + 1, [] => []
  | fuel + 1, c :: cs =>
    if c.isDigit then
      match cs with
      | d2 :: rest2 =>
        if d2.isDigit then
          match matchTimeTail rest2 with
          | some (mins, p, r5) =>
            c :: d2 :: ' ' :: (mins ++ ' ' :: p :: '-' :: 'M' :: timeGo fuel r5)
          | none =>
            match matchTimeTail cs with
            | some (mins, p, r5) =>
              c :: ' ' :: (mins ++ ' ' :: p :: '-' :: 'M' :: timeGo fuel r5)
            | none => c :: timeGo fuel cs
        else
          match matchTimeTail cs with
          | some (mins, p, r5) =>
            c :: ' ' :: (mins ++ ' ' :: p :: '-' :: 'M' :: timeGo fuel r5)
          | none => c :: timeGo fuel cs
      | [] => c :: timeGo fuel cs
    else c :: timeGo fuel cs

def timeSub (s : List Char) : List Char := timeGo s.length s

/-- Embeds Python `text.replace(pat, rep)`: replace every occurrence of
`pat`, left to right, without rescanning replacements.  The patterns used
by `_format_for_tts` are all non-empty; an empty pattern is treated as a
no-op here. -/
def replaceGo (pat rep : List Char) : Nat → List Char → List Char
  | 0, s => s
  | _ + 1, [] => []
  | fuel + 1, c :: cs =>
    if pat.isPrefixOf (c :: cs) && !pat.isEmpty then
      rep ++ replaceGo pat rep fuel ((c :: cs).drop pat.length)
    else c :: replaceGo pat rep fuel cs

def replaceAll (pat rep s : List Char) : List Char := replaceGo pat rep s.length s

/-- The abbreviation table of `_format_for_tts`
(`generate_morning_premium_briefing.py` lines 692-703), in dict insertion
order, which is the order the `text.replace` calls run in. -/
def abbrevTable : List (String × String) :=
  [("CEO", "C-E-O"), ("CFO", "C-F-O"), ("COO", "C-O-O"), ("CTO", "C-T-O"),
   ("IPO", "I-P-O"), ("GDP", "G-D-P"), ("AI", "A-I"), ("EV", "E-V"),
   ("ETF", "E-T-F"), ("SEC", "S-E-C"), ("FDA", "F-D-A"), ("EU", "E-U"),
   ("UK", "U-K"), ("US", "U-S"), ("Q1", "first quarter"), ("Q2", "second quarter"),
   ("Q3", "third quarter"), ("Q4", "fourth quarter"), ("YoY", "year over year"),
   ("MoM", "month over month"), ("P/E", "price to earnings"), ("ET", "Eastern"),
   ("EST", "Eastern"), ("PST", "Pacific"), ("CPI", "C-P-I"), ("PPI", "P-P-I"),
   ("PMI", "P-M-I"), ("ISM", "I-S-M"), ("FOMC", "F-O-M-C")]

/-- The `for abbr, replacement in abbreviations.items(): text =
text.replace(abbr, replacement)` loop of `_format_for_tts`
(`generate_morning_premium_briefing.py` lines 705-706). -/
def applyAbbrevs (s : List Char) : List Char :=
  abbrevTable.foldl (fun acc p => replaceAll p.1.toList p.2.toList acc) s

/-- Embeds `MorningPremiumBriefingGenerator._format_for_tts`
(`generate_morning_premium_briefing.py` lines 670-707): the ticker rule,
the percent rule, the four currency rules (T, B, M, K in that order), the
time rule, then the abbreviation replacements, applied in this fixed
order. -/
def format_for_tts (s : String) : String :=
  let t1 := tickerSub s.toList
  let t2 := percentSub t1
  let t3 := currencySub 'T' "trillion dollars" t2
  let t4 := currencySub 'B' "billion dollars" t3
  let t5 := currencySub 'M' "million dollars" t4
  let t6 := currencySub 'K' "thousand dollars" t5
  let t7 := timeSub t6
  String.mk (applyAbbrevs t7)

/-! Helper lemmas about the deduplicator. -/

theorem dedupGo_sublist (l : List Article) :
    ∀ seen, (dedupGo seen l).Sublist l := by
  induction l with
  | nil => intro seen; simp [dedupGo]
  | cons a rest ih =>
    intro seen
    unfold dedupGo
    by_cases h : topicSignature a.title ∉ seen ∨ (topicSignature a.title).length < 2
    · simp only [if_pos h]
      exact List.Sublist.cons₂ a (ih _)
    · simp only [if_neg h]
      exact List.Sublist.cons a (ih seen)

theorem dedupGo_sig_not_seen (l : List Article) :
    ∀ seen a, a ∈ dedupGo seen l → 2 ≤ (topicSignature a.title).length →
      topicSignature a.title ∉ seen := by
  induction l with
  | nil => intro seen a ha; simp [dedupGo] at ha
  | cons b rest ih =>
    intro seen a ha hlen
    unfold dedupGo at ha
    by_cases h : topicSignature b.title ∉ seen ∨ (topicSignature b.title).length < 2
    · simp only [if_pos h] at ha
      rcases List.mem_cons.mp ha with rfl | ha
      · rcases h with h | h
        · exact h
        · omega
      · intro hc
        exact ih _ a ha hlen (List.mem_cons_of_mem _ hc)
    · simp only [if_neg h] at ha
      exact ih seen a ha hlen

theorem dedupGo_pairwise (l : List Article) :
    ∀ seen, (dedupGo seen l).Pairwise
      (fun a b => ¬(topicSignature a.title = topicSignature b.title ∧
                    2 ≤ (topicSignature a.title).length)) := by
  induction l with
  | nil => intro seen; simp [dedupGo]
  | cons a rest ih =>
    intro seen
    unfold dedupGo
    by_cases h : topicSignature a.title ∉ seen ∨ (topicSignature a.title).length < 2
    · simp only [if_pos h]
      refine List.Pairwise.cons ?_ (ih _)
      intro b hb ⟨heq, hlen⟩
      have hb2 : 2 ≤ (topicSignature b.title).length := heq ▸ hlen
      have := dedupGo_sig_not_seen rest _ b hb hb2
      exact this (heq ▸ List.mem_cons_self _ _)
    · simp only [if_neg h]
      exact ih seen

theorem dedupGo_eq_keepSpec (l : List Article) :
    ∀ seen prev, (∀ s, s ∈ seen ↔ s ∈ prev) →
      dedupGo seen l = dedupKeepSpec prev l := by
  induction l with
  | nil => intro seen prev _; simp [dedupGo, dedupKeepSpec]
  | cons a rest ih =>
    intro seen prev hequiv
    unfold dedupGo dedupKeepSpec
    by_cases h : topicSignature a.title ∉ seen ∨ (topicSignature a.title).length < 2
    · have h' : topicSignature a.title ∉ prev ∨ (topicSignature a.title).length < 2 := by
        rcases h with h | h
        · exact Or.inl (fun hc => h ((hequiv _).mpr hc))
        · exact Or.inr h
      simp only [if_pos h, if_pos h']
      refine congrArg _ (ih _ _ ?_)
      intro s
      simp only [List.mem_cons]
      exact or_congr Iff.rfl (hequiv s)
    · have h' : ¬(topicSignature a.title ∉ prev ∨ (topicSignature a.title).length < 2) := by
        push_neg at h ⊢
        exact ⟨(hequiv _).mp h.1, h.2⟩
      simp only [if_neg h, if_neg h']
      refine ih _ _ ?_
      intro s
      simp only [List.mem_cons]
      constructor
      · intro hs
        exact Or.inr ((hequiv s).mp hs)
      · intro hs
        rcases hs with rfl | hs
        · push_neg at h
          exact h.1
        · exact (hequiv s).mpr hs

/-- Claim C3: for every input item list, the deduplicator's output is no
longer than its input, keeps items in their relative input order, contains
no two items sharing an equal topic signature of length at least 2, and
keeps an item iff its signature does not occur among the signatures of the
earlier input items or has fewer than 2 tokens. -/
theorem C3_dedup_properties (articles : List Article) :
    (deduplicate_articles articles).length ≤ articles.length ∧
    (deduplicate_articles articles).Sublist articles ∧
    (deduplicate_articles articles).Pairwise
      (fun a b => ¬(topicSignature a.title = topicSignature b.title ∧
                    2 ≤ (topicSignature a.title).length)) ∧
    deduplicate_articles articles = dedupKeepSpec [] articles := by
  refine ⟨(dedupGo_sublist articles []).length_le, dedupGo_sublist articles [],
    dedupGo_pairwise articles [], dedupGo_eq_keepSpec articles [] [] ?_⟩
  intro s
  exact Iff.rfl

/-! Helper lemmas about the per-call company-key filter. -/

theorem sectionFilter_key_not_seen (focus : Option (List String)) (l : List Article) :
    ∀ seen a, a ∈ sectionFilter seen focus l → companyKey a.title ∉ seen := by
  induction l with
  | nil => intro seen a ha; simp [sectionFilter] at ha
  | cons b rest ih =>
    intro seen a ha
    unfold sectionFilter at ha
    by_cases hseen : companyKey b.title ∈ seen
    · simp only [if_pos hseen] at ha
      exact ih seen a ha
    · simp only [if_neg hseen] at ha
      match focus, ha with
      | some kws, ha =>
        by_cases hm : matchesFocus kws b = true
        · simp only [if_pos hm] at ha
          rcases List.mem_cons.mp ha with rfl | ha
          · exact hseen
          · have := ih _ a ha
            intro hc
            exact this (List.mem_cons_of_mem _ hc)
        · simp only [if_neg hm] at ha
          exact ih seen a ha
      | none, ha =>
        rcases List.mem_cons.mp ha with rfl | ha
        · exact hseen
        · have := ih _ a ha
          intro hc
          exact this (List.mem_cons_of_mem _ hc)

/-- Claim C2 (amended): within a single `generate_section` call, the
keyword-path selection never picks two articles with the same company key:
once an article with a given key is selected, every later article with that
key is skipped in that call. -/
theorem C2_per_call_company_keys (focus : Option (List String)) (l : List Article) :
    ∀ seen, (sectionFilter seen focus l).Pairwise
      (fun a b => companyKey a.title ≠ companyKey b.title) := by
  induction l with
  | nil => intro seen; simp [sectionFilter]
  | cons b rest ih =>
    intro seen
    unfold sectionFilter
    by_cases hseen : companyKey b.title ∈ seen
    · simp only [if_pos hseen]
      exact ih seen
    · simp only [if_neg hseen]
      match focus with
      | some kws =>
        by_cases hm : matchesFocus kws b = true
        · simp only [if_pos hm]
          refine List.Pairwise.cons ?_ (ih _)
          intro c hc heq
          exact sectionFilter_key_not_seen _ rest _ c hc (heq ▸ List.mem_cons_self _ _)
        · simp only [if_neg hm]
          exact ih seen
      | none =>
        refine List.Pairwise.cons ?_ (ih _)
        intro c hc heq
        exact sectionFilter_key_not_seen _ rest _ c hc (heq ▸ List.mem_cons_self _ _)

/-- The two demonstration articles for claim C2: both carry the ticker
`NVDA` in the title; the first matches the market-overview keywords, the
second the stocks keywords. -/
def nvdaMarket : Article := ⟨"NVDA stock market rally", ""⟩

def nvdaEarnings : Article := ⟨"NVDA earnings beat company forecasts", ""⟩

/-- Claim C2 counterexample: routing the two NVDA articles through the
section catalog of `create_comprehensive_briefing` puts company key `NVDA`
into more than one section of the final package (the per-call
`seen_companies` set is not shared across `generate_section` calls), so a
company key does not appear in at most one section. -/
theorem C2_counterexample :
    2 ≤ ((routeSections sectionCatalog [nvdaMarket, nvdaEarnings]).filter
          (fun s => s.2.any (fun a => companyKey a.title = "NVDA"))).length := by
  decide

/-- Claim C5: the volume classifier picks exactly one tier by fixed
thresholds: comprehensive iff at least 15 items, detailed iff 8 to 14
items, deep analysis iff fewer than 8 items. -/
theorem C5_volume_thresholds (n : Nat) :
    (content_strategy n = .comprehensive ↔ 15 ≤ n) ∧
    (content_strategy n = .detailed ↔ 8 ≤ n ∧ n < 15) ∧
    (content_strategy n = .deep_analysis ↔ n < 8) := by
  unfold content_strategy
  split_ifs with h1 h2 <;> simp_all <;> omega

/-- Witness for claim C5 at concrete item counts. -/
theorem C5_volume_thresholds_witness :
    content_strategy 20 = .comprehensive ∧
    content_strategy 10 = .detailed ∧
    content_strategy 3 = .deep_analysis :=
  ⟨(C5_volume_thresholds 20).1.mpr (by decide),
   (C5_volume_thresholds 10).2.1.mpr (by decide),
   (C5_volume_thresholds 3).2.2.mpr (by decide)⟩

/-- Claim C1 counterexample: a 10-minute request with 3 articles lands in
the deep-analysis tier, but its section word budgets sum to 1450, not to
round(10 × 150) = 1500; the adjusted target of the same request is 750
words, which the fixed table does not match either. -/
theorem C1_counterexample :
    content_strategy 3 = .deep_analysis ∧
    sectionSum 3 10 = 1450 ∧
    target_words 3 10 = 750 ∧
    sectionSum 3 10 ≠ 1500 := by
  decide

/-- Claim C1 (amended): the per-section word budgets come from fixed
per-tier tables; their sum is 2250 for a comprehensive plan of adjusted
length at least 14, 1850 for a shorter comprehensive plan, 1700 for a
detailed plan and 1450 for a deep-analysis plan, independent of the
requested duration, so the sum equals duration × 150 only when those
constants coincide. -/
theorem C1_fixed_budget_tables (n t : Nat) :
    sectionSum n t =
      match content_strategy n with
      | .comprehensive => if 14 ≤ actual_length n t then 2250 else 1850
      | .detailed => 1700
      | .deep_analysis => 1450 := by
  unfold sectionSum section_targets
  cases h : content_strategy n
  · simp only [h]
    split_ifs <;> decide
  · simp only [h]
    decide
  · simp only [h]
    decide

/-- Claim C10: with `days_back = 1` on a Monday (US-Eastern weekday 0) the
fetch window silently spans 3 days, the start sitting 3 days before now; in
every other case the window spans exactly the requested number of days. -/
theorem C10_monday_window (weekday days_back : Nat) (now : Int) :
    (weekday = 0 ∧ days_back = 1 →
      actual_days_back weekday days_back = 3 ∧
      windowStart now weekday days_back = now - 3) ∧
    (¬(weekday = 0 ∧ days_back = 1) →
      actual_days_back weekday days_back = days_back ∧
      windowStart now weekday days_back = now - days_back) := by
  constructor
  · intro h
    simp [actual_days_back, windowStart, h]
  · intro h
    simp [actual_days_back, windowStart, h]

/-- Witness for claim C10: Monday with one requested day gives a 3-day
window; Wednesday with one requested day gives a 1-day window. -/
theorem C10_monday_window_witness :
    actual_days_back 0 1 = 3 ∧ actual_days_back 2 1 = 1 :=
  ⟨((C10_monday_window 0 1 0).1 (by decide)).1,
   ((C10_monday_window 2 1 0).2 (by decide)).1⟩

/-- Claim C6: when stitching is unavailable, the intro file is absent, or
the intro fails to load, the assembler returns the main segment unchanged;
when both segments load, the result is the intro followed by the main
segment and the combined duration is the sum of the two durations. -/
theorem C6_intro_fallback (ia ma : List Int) (io mo : Option (List Int)) :
    stitch_audio_with_intro false true io mo = .original ∧
    stitch_audio_with_intro true false io mo = .original ∧
    stitch_audio_with_intro true true none mo = .original ∧
    stitch_audio_with_intro true true (some ia) (some ma) = .combined (ia ++ ma) ∧
    audioDuration (ia ++ ma) = audioDuration ia + audioDuration ma := by
  refine ⟨rfl, rfl, rfl, rfl, ?_⟩
  simp [audioDuration]

/-- Claim C7 counterexample: with the intro loaded and the main segment
failing to load, the assembler returns the original main file reference
instead of raising — the catch-all `except` swallows the load error. -/
theorem C7_counterexample :
    stitch_audio_with_intro true true (some [1, 2]) none = .original := by
  decide

/-- Claim C7 (amended): when the main audio segment fails to load, the
error is caught by the surrounding handler and the assembler returns the
original main file reference unchanged, without an intro; no error
propagates to the caller. -/
theorem C7_main_load_swallowed (ia : List Int) :
    stitch_audio_with_intro true true (some ia) none = .original := rfl

/-- Claim C8 counterexample: a successful provider response containing an
item with an empty title is returned as-is — `fetch_general_market`
performs no title filtering. -/
theorem C8_counterexample :
    fetch_general_market (.httpResponse 200 [Article.mk "" "body text"]) =
      [Article.mk "" "body text"] ∧
    (Article.mk "" "body text").title = "" := by
  decide

/-- Claim C8 (amended): the fetch never raises — an exception or a
non-success status yields an empty list, and a 200 response yields its
first 20 articles unfiltered (so a non-empty title is not guaranteed). -/
theorem C8_fetch_total (st : Nat) (arts : List Article) :
    (fetch_general_market (.httpResponse st arts)).Sublist arts ∧
    (fetch_general_market (.httpResponse st arts)).length ≤ 20 ∧
    (st ≠ 200 → fetch_general_market (.httpResponse st arts) = []) ∧
    fetch_general_market .failure = [] := by
  simp only [fetch_general_market]
  split_ifs with h
  · refine ⟨List.take_sublist 20 arts, ?_, fun hc => absurd h hc, trivial⟩
    rw [List.length_take]
    exact min_le_left _ _
  · exact ⟨List.nil_sublist arts, by simp, fun _ => rfl, trivial⟩

/-- Witness for claim C8: a 404 response yields the empty list; a 200
response yields at most 20 items. -/
theorem C8_fetch_total_witness :
    fetch_general_market (.httpResponse 404 [Article.mk "t" "c"]) = [] ∧
    (fetch_general_market (.httpResponse 200 [Article.mk "t" "c"])).length ≤ 20 :=
  ⟨(C8_fetch_total 404 [Article.mk "t" "c"]).2.2.1 (by decide),
   (C8_fetch_total 200 [Article.mk "t" "c"]).2.1⟩

/-- Claim C9: the escalation ladder of `fetch_world_news` is bounded — the
queries actually tried are always a prefix of the fixed three-step ladder —
and exhausting it with every attempt below the threshold still returns the
last attempt's articles (at most 75) instead of failing. -/
theorem C9_bounded_ladder (search : String → Option (List Article)) :
    (∃ k, (fetch_world_news search).2 = worldNewsLadder.take k) ∧
    (fetch_world_news search).2.length ≤ 3 ∧
    (fetch_world_news search).1.length ≤ 75 ∧
    ((∀ q, escalateNeeded (search q) = true) →
      fetch_world_news search =
        (((search "breaking news international").getD []).take 75, worldNewsLadder)) := by
  unfold fetch_world_news
  dsimp only
  split_ifs with h1 h2
  · refine ⟨⟨3, rfl⟩, by simp, ?_, fun _ => rfl⟩
    rw [List.length_take]
    exact min_le_left _ _
  · refine ⟨⟨2, rfl⟩, by simp, ?_, fun hall => absurd (hall "world") h2⟩
    rw [List.length_take]
    exact min_le_left _ _
  · refine ⟨⟨1, rfl⟩, by simp, ?_, fun hall => absurd (hall "news") h1⟩
    rw [List.length_take]
    exact min_le_left _ _

/-- Witness for claim C9: when every search comes back empty the ladder is
exhausted and the empty list is returned with all three queries tried. -/
theorem C9_bounded_ladder_witness :
    fetch_world_news (fun _ => none) = ([], worldNewsLadder) ∧
    (fetch_world_news (fun _ => none)).2.length ≤ 3 := by
  have h := C9_bounded_ladder (fun _ => none)
  exact ⟨(h.2.2.2 (fun q => rfl)).trans (by rfl), h.2.1⟩

/-! Helper lemmas for the TTS normalizer. -/

theorem mem_of_mem_dropWhile_pred (p : Char → Bool) (l : List Char) :
    ∀ c, c ∈ l.dropWhile p → c ∈ l := by
  induction l with
  | nil => intro c hc; simp [List.dropWhile] at hc
  | cons a as ih =>
    intro c hc
    rw [List.dropWhile_cons] at hc
    by_cases hp : p a = true
    · simp only [if_pos hp] at hc
      exact List.mem_cons_of_mem _ (ih c hc)
    · simp only [if_neg hp] at hc
      exact hc

theorem mem_of_isPrefixOf (p : List Char) :
    ∀ l, p.isPrefixOf l = true → ∀ x ∈ p, x ∈ l := by
  induction p with
  | nil => intro l _ x hx; simp at hx
  | cons a as ih =>
    intro l hpre x hx
    match l with
    | [] => simp [List.isPrefixOf] at hpre
    | b :: bs =>
      simp only [List.isPrefixOf, Bool.and_eq_true, beq_iff_eq] at hpre
      rcases List.mem_cons.mp hx with rfl | hx
      · exact hpre.1 ▸ List.mem_cons_self _ _
      · exact List.mem_cons_of_mem _ (ih bs hpre.2 x hx)

theorem tickerGo_id (fuel : Nat) :
    ∀ l : List Char, (∀ c ∈ l, c.isUpper = false) → tickerGo fuel l = l := by
  induction fuel with
  | zero => intro l _; rfl
  | succ fuel ih =>
    intro l hl
    match l with
    | [] => rfl
    | c :: cs =>
      unfold tickerGo
      by_cases hw : isWordChar c = true
      · have hrun : isTickerRun 2 5 (c :: cs.takeWhile isWordChar) = false := by
          have hcup : c.isUpper = false := hl c (List.mem_cons_self _ _)
          simp [isTickerRun, hcup]
        simp only [hw, if_true, hrun, if_false, Bool.false_eq_true]
        rw [ih (cs.dropWhile isWordChar)
          (fun d hd => hl d (List.mem_cons_of_mem _
            (mem_of_mem_dropWhile_pred isWordChar cs d hd)))]
        rw [List.cons_append, List.takeWhile_append_dropWhile]
      · simp only [hw, Bool.false_eq_true, if_false]
        rw [ih cs (fun d hd => hl d (List.mem_cons_of_mem _ hd))]

theorem matchNumThen_not_digit (t : Char) (c : Char) (cs : List Char)
    (hc : c.isDigit = false) : matchNumThen t (c :: cs) = none := by
  unfold matchNumThen
  simp [List.takeWhile_cons, hc]

theorem percentGo_id (fuel : Nat) :
    ∀ l : List Char, (∀ c ∈ l, c.isDigit = false) → percentGo fuel l = l := by
  induction fuel with
  | zero => intro l _; rfl
  | succ fuel ih =>
    intro l hl
    match l with
    | [] => rfl
    | c :: cs =>
      unfold percentGo
      rw [matchNumThen_not_digit '%' c cs (hl c (List.mem_cons_self _ _))]
      rw [ih cs (fun d hd => hl d (List.mem_cons_of_mem _ hd))]

theorem currencyGo_id (t : Char) (phrase : List Char) (fuel : Nat) :
    ∀ l : List Char, (∀ c ∈ l, c ≠ '$') → currencyGo t phrase fuel l = l := by
  induction fuel with
  | zero => intro l _; rfl
  | succ fuel ih =>
    intro l hl
    match l with
    | [] => rfl
    | c :: cs =>
      unfold currencyGo
      have hc : ¬(c = '$') := hl c (List.mem_cons_self _ _)
      simp only [if_neg hc]
      rw [ih cs (fun d hd => hl d (List.mem_cons_of_mem _ hd))]

theorem timeGo_id (fuel : Nat) :
    ∀ l : List Char, (∀ c ∈ l, c.isDigit = false) → timeGo fuel l = l := by
  induction fuel with
  | zero => intro l _; rfl
  | succ fuel ih =>
    intro l hl
    match l with
    | [] => rfl
    | c :: cs =>
      unfold timeGo
      have hc : c.isDigit = false := hl c (List.mem_cons_self _ _)
      simp only [hc, Bool.false_eq_true, if_false]
      rw [ih cs (fun d hd => hl d (List.mem_cons_of_mem _ hd))]

theorem replaceGo_id (pat rep : List Char) (hu : ∃ u ∈ pat, u.isUpper = true)
    (fuel : Nat) :
    ∀ l : List Char, (∀ c ∈ l, c.isUpper = false) → replaceGo pat rep fuel l = l := by
  induction fuel with
  | zero => intro l _; rfl
  | succ fuel ih =>
    intro l hl
    match l with
    | [] => rfl
    | c :: cs =>
      unfold replaceGo
      have hpre : pat.isPrefixOf (c :: cs) = false := by
        by_contra hcon
        rw [Bool.not_eq_false] at hcon
        obtain ⟨u, hu1, hu2⟩ := hu
        have := hl u (mem_of_isPrefixOf pat (c :: cs) hcon u hu1)
        rw [this] at hu2
        exact Bool.false_ne_true hu2
      simp only [hpre, Bool.false_and, Bool.false_eq_true, if_false]
      rw [ih cs (fun d hd => hl d (List.mem_cons_of_mem _ hd))]

theorem foldAbbrevs_id (tbl : List (String × String))
    (htbl : ∀ p ∈ tbl, ∃ u ∈ p.1.toList, u.isUpper = true) :
    ∀ l : List Char, (∀ c ∈ l, c.isUpper = false) →
      tbl.foldl (fun acc p => replaceAll p.1.toList p.2.toList acc) l = l := by
  induction tbl with
  | nil => intro l _; rfl
  | cons p rest ih =>
    intro l hl
    simp only [List.foldl_cons]
    rw [show replaceAll p.1.toList p.2.toList l = l from
      replaceGo_id p.1.toList p.2.toList (htbl p (List.mem_cons_self _ _)) l.length l hl]
    exact ih (fun q hq => htbl q (List.mem_cons_of_mem _ hq)) l hl

theorem applyAbbrevs_id (l : List Char) (hl : ∀ c ∈ l, c.isUpper = false) :
    applyAbbrevs l = l :=
  foldAbbrevs_id abbrevTable (by decide) l hl

/-- The character class on which the normalizer is the identity: lowercase
ASCII letters and the space. -/
def lowerAlpha : List Char := "abcdefghijklmnopqrstuvwxyz ".toList

theorem lowerAlpha_props : ∀ c ∈ lowerAlpha,
    c.isUpper = false ∧ c.isDigit = false ∧ c ≠ '$' := by decide

/-- On text made only of lowercase letters and spaces, every rule of the
normalizer leaves the input unchanged. -/
theorem format_for_tts_id (s : String) (hs : ∀ c ∈ s.toList, c ∈ lowerAlpha) :
    format_for_tts s = s := by
  have hup : ∀ c ∈ s.toList, c.isUpper = false :=
    fun c hc => (lowerAlpha_props c (hs c hc)).1
  have hdig : ∀ c ∈ s.toList, c.isDigit = false :=
    fun c hc => (lowerAlpha_props c (hs c hc)).2.1
  have hdol : ∀ c ∈ s.toList, c ≠ '$' :=
    fun c hc => (lowerAlpha_props c (hs c hc)).2.2
  unfold format_for_tts tickerSub percentSub currencySub timeSub
  dsimp only
  rw [tickerGo_id _ _ hup, percentGo_id _ _ hdig, currencyGo_id _ _ _ _ hdol,
    currencyGo_id _ _ _ _ hdol, currencyGo_id _ _ _ _ hdol, currencyGo_id _ _ _ _ hdol,
    timeGo_id _ _ hdig, applyAbbrevs_id _ hup]
  cases s
  rfl

/-- Claim C4 counterexample: the normalizer is not idempotent.  On
`"CEOCEO"` (an uppercase run of length 6, which the ticker rule skips) the
substring-based abbreviation replacement produces `"C-E-OC-E-O"`, which
contains the fresh standalone uppercase token `OC`; a second application
rewrites that token with the ticker rule, so applying the normalizer twice
differs from applying it once. -/
theorem C4_counterexample :
    format_for_tts (format_for_tts "CEOCEO") ≠ format_for_tts "CEOCEO" := by
  decide

/-- Claim C4 (amended): the normalizer is not idempotent on all strings;
it is idempotent on inputs it leaves unchanged, in particular on all text
made only of lowercase letters and spaces, where every rule is a no-op. -/
theorem C4_idempotent_on_plain_text (s : String)
    (hs : ∀ c ∈ s.toList, c ∈ lowerAlpha) :
    format_for_tts (format_for_tts s) = format_for_tts s := by
  rw [format_for_tts_id s hs, format_for_tts_id s hs]

/-- Witness for claim C4 (amended) at a concrete lowercase input. -/
theorem C4_idempotent_on_plain_text_witness :
    format_for_tts (format_for_tts "market update") = format_for_tts "market update" :=
  C4_idempotent_on_plain_text "market update" (by decide)

end Briefing
